import Mathlib

/-!
Shallow embedding of the STRP-1 extraction-and-aggregation engine
(src/clo_plo_calculator.py and src/data.py), with theorems checking the
stated properties of its specification.

Modelling conventions:
* Python dictionaries are association lists in insertion order; dictionary
  keys coming from Python dicts are unique, so lookups take the first hit.
* Python floats are modelled as exact rationals; round(x, 2) is modelled
  as round-half-to-even at two decimal places, matching Python rounding
  on exactly representable values.
* A raw spreadsheet score cell is either a value accepted by float() or a
  non-numeric value; float() failure is modelled by the Raw.bad case.
* Strings handled by the identifier normalizer are lists of characters;
  str.lower and the regex character classes are modelled over ASCII.
-/

/-- Dictionary lookup on an association list: first entry whose key matches. -/
def alookup {β : Type} : List (String × β) → String → Option β
  | [], _ => none
  | p :: rest, k => if p.1 = k then some p.2 else alookup rest k

/-- Round-half-to-even of a rational to an integer, as Python round does on
exactly representable values. -/
def roundHalfEven (q : ℚ) : ℤ :=
  let f := ⌊q⌋
  let r := q - f
  if r < 1/2 then f
  else if 1/2 < r then f + 1
  else if f % 2 = 0 then f else f + 1

/-- Python round(x, 2) on exact values: scale by 100, round half to even,
scale back. -/
def pyRound2 (q : ℚ) : ℚ := (roundHalfEven (q * 100) : ℚ) / 100

/-- A raw score cell value: either numeric (accepted by float()) or a value
on which float() raises ValueError or TypeError. -/
inductive Raw : Type
  | num (q : ℚ)
  | bad
deriving DecidableEq

/-- One assessment item of a CLO, as parsed from the sheet:
module name, maximum score and weight. -/
structure AssessmentItem : Type where
  module : String
  maxScore : ℚ
  weight : ℚ
deriving DecidableEq

/-- Per-student raw scores: module name to raw cell value. -/
abbrev Scores := List (String × Raw)

/-- The clo_assessments map: CLO id to its list of assessment items. -/
abbrev CloAssessments := List (String × List AssessmentItem)

/-- The student_scores map: student id to raw scores. -/
abbrev StudentScores := List (String × Scores)

/-- Python float(student_scores[sid].get(module, 0)) with ValueError and TypeError
mapped to 0.0: missing and non-numeric raw scores count as 0. -/
def moduleScore (scores : Scores) (module : String) : ℚ :=
  match alookup scores module with
  | some (Raw.num q) => q
  | some Raw.bad => 0
  | none => 0

/-- One iteration of the inner loop of calculate_clo_scores:
normalized = (score / max_score) * weight when max_score is nonzero, else 0. -/
def normalizedItem (scores : Scores) (item : AssessmentItem) : ℚ :=
  if item.maxScore ≠ 0 then (moduleScore scores item.module / item.maxScore) * item.weight
  else 0

/-- The per-CLO body of calculate_clo_scores: total_weight as a sum of
weights, weighted_score accumulated over the items, then the guarded
division and rounding. -/
def cloScoreFor (modules : List AssessmentItem) (scores : Scores) : ℚ :=
  let total_weight := (modules.map AssessmentItem.weight).sum
  let weighted_score := modules.foldl (fun acc item => acc + normalizedItem scores item) 0
  if total_weight ≠ 0 then pyRound2 ((weighted_score / total_weight) * 100) else 0

/-- calculate_clo_scores from src/clo_plo_calculator.py: for each student in
order, an inner map assigning to each CLO of clo_assessments its score. -/
def calculate_clo_scores (clo_assessments : CloAssessments) (student_scores : StudentScores) :
    List (String × List (String × ℚ)) :=
  student_scores.map fun p =>
    (p.1, clo_assessments.map fun q => (q.1, cloScoreFor q.2 p.2))

/-- A CLO definition parsed from the sheet: description text and learning
domain level. The clo_definitions map (the clos result of extraction) pairs
CLO ids with these; calculate_clo_scores does not receive it. -/
structure CloDef : Type where
  description : String
  LDL : String
deriving DecidableEq

/-- The clo_definitions map: CLO id to its definition. -/
abbrev CloDefinitions := List (String × CloDef)

/-- A CLO-to-PLO mapping entry: target PLO id and weight. -/
structure PloMapping : Type where
  PLO : String
  weight : ℚ
deriving DecidableEq

/-- One accumulator entry of the plo_map dictionary in calculate_plo_scores. -/
structure PloAcc : Type where
  plo : String
  sum : ℚ
  total_weight : ℚ
deriving DecidableEq

/-- Inserting one contribution into the plo_map dictionary: update the entry
in place if the PLO is present, else append a fresh entry initialised from
zero and immediately incremented. -/
def addPlo : List PloAcc → String → ℚ → ℚ → List PloAcc
  | [], plo, score, weight => [⟨plo, score * weight, weight⟩]
  | a :: rest, plo, score, weight =>
    if a.plo = plo then
      ⟨a.plo, a.sum + score * weight, a.total_weight + weight⟩ :: rest
    else
      a :: addPlo rest plo score weight

/-- One iteration of the loop of calculate_plo_scores over the CLO scores of
a student: a CLO with a mapping contributes score times weight, a CLO
without a mapping contributes nothing. -/
def ploStep (cloToPlo : List (String × PloMapping)) (acc : List PloAcc) (p : String × ℚ) :
    List PloAcc :=
  match alookup cloToPlo p.1 with
  | some m => addPlo acc m.PLO p.2 m.weight
  | none => acc

/-- The plo_map built for one student: fold over the CLO scores in order,
skipping CLOs without a mapping in clo_to_plo. -/
def ploAccum (cloVals : List (String × ℚ)) (cloToPlo : List (String × PloMapping)) :
    List PloAcc :=
  cloVals.foldl (ploStep cloToPlo) []

/-- Dictionary probe of the plo_map accumulator: the entry for a PLO id,
if present. -/
def findAcc : List PloAcc → String → Option PloAcc
  | [], _ => none
  | a :: rest, plo => if a.plo = plo then some a else findAcc rest plo

/-- The contributions feeding one PLO for one student: the (score, weight)
pairs of the CLOs of the student that map to that PLO, in order. -/
def contribs (cloVals : List (String × ℚ)) (cloToPlo : List (String × PloMapping))
    (plo : String) : List (ℚ × ℚ) :=
  cloVals.filterMap fun p =>
    match alookup cloToPlo p.1 with
    | some m => if m.PLO = plo then some (p.2, m.weight) else none
    | none => none

/-- The per-student output comprehension of calculate_plo_scores: divides by
total_weight with no zero guard, so a zero accumulated weight is a
ZeroDivisionError, modelled as none. -/
def studentPlo : List PloAcc → Option (List (String × ℚ))
  | [] => some []
  | a :: rest =>
    if a.total_weight ≠ 0 then
      (studentPlo rest).map fun r => (a.plo, pyRound2 (a.sum / a.total_weight)) :: r
    else none

/-- calculate_plo_scores from src/clo_plo_calculator.py; none models the
unhandled ZeroDivisionError raised on a zero accumulated PLO weight. -/
def calculate_plo_scores :
    List (String × List (String × ℚ)) → List (String × PloMapping) →
    Option (List (String × List (String × ℚ)))
  | [], _ => some []
  | p :: rest, cloToPlo =>
    match studentPlo (ploAccum p.2 cloToPlo) with
    | some inner => (calculate_plo_scores rest cloToPlo).map fun r => (p.1, inner) :: r
    | none => none

/-- calculate_grades from src/clo_plo_calculator.py: flatten all assessment
items of all CLOs into one pool, compute the global total weight once, then
score each student against the flat pool with the guarded division. -/
def calculate_grades (clo_assessments : CloAssessments) (student_scores : StudentScores) :
    List (String × ℚ) :=
  let all_modules := (clo_assessments.map Prod.snd).flatten
  let total_weight := (all_modules.map AssessmentItem.weight).sum
  student_scores.map fun p =>
    (p.1,
      if total_weight ≠ 0 then
        pyRound2 ((all_modules.foldl (fun acc item => acc + normalizedItem p.2 item) 0 /
          total_weight) * 100)
      else 0)

/-- get_letter_grade from src/clo_plo_calculator.py: the if-elif chain of
threshold bands, evaluated high to low with inclusive lower bounds. -/
def get_letter_grade (percentage : ℚ) : String :=
  if 95 ≤ percentage then "A+"
  else if 90 ≤ percentage then "A"
  else if 85 ≤ percentage then "A-"
  else if 80 ≤ percentage then "B+"
  else if 75 ≤ percentage then "B"
  else if 70 ≤ percentage then "B-"
  else if 67 ≤ percentage then "C+"
  else if 63 ≤ percentage then "C"
  else if 60 ≤ percentage then "C-"
  else "F"

/-- Lowercase ASCII letter, the regex class [a-z]. -/
def isLowerAlpha (c : Char) : Bool := decide (97 ≤ c.toNat ∧ c.toNat ≤ 122)

/-- ASCII digit, the regex class \d over the inputs in scope. -/
def isDigitChar (c : Char) : Bool := decide (48 ≤ c.toNat ∧ c.toNat ≤ 57)

/-- The regex ^[a-z]{2}\d{5}$: exactly two lowercase letters followed by
exactly five digits. -/
def matchesLocal (s : List Char) : Bool :=
  decide (s.length = 7) && (s.take 2).all isLowerAlpha && (s.drop 2).all isDigitChar

/-- Python str.strip: whitespace removed from both ends. -/
def pyStrip (s : List Char) : List Char :=
  ((s.dropWhile Char.isWhitespace).reverse.dropWhile Char.isWhitespace).reverse

/-- Line 29 of src/data.py: str(student_id_raw).strip().lower(). -/
def normalizeRaw (s : List Char) : List Char := (pyStrip s).map Char.toLower

/-- Python substring containment (the in operator on str). -/
def hasSubstring : List Char → List Char → Bool
  | [], pat => pat.isEmpty
  | c :: rest, pat => pat.isPrefixOf (c :: rest) || hasSubstring rest pat

/-- The institutional domain suffix appended to canonical identifiers. -/
def domainSuffix : List Char := "@st.habib.edu.pk".data

/-- validate_and_format_student_id from src/data.py; none models the
ValueError raised on an unresolvable identifier. Branch 1 fires when the
string contains the domain suffix anywhere; later branches retry the
grammar on the raw, the cleaned, and the extracted letters and digits. -/
def validate_and_format_student_id (raw : List Char) : Option (List Char) :=
  let student_id := normalizeRaw raw
  if hasSubstring student_id domainSuffix then
    let local_part := student_id.takeWhile (fun c => c ≠ '@')
    if matchesLocal local_part then
      if domainSuffix.isSuffixOf student_id then some student_id else none
    else none
  else if matchesLocal student_id then some (student_id ++ domainSuffix)
  else
    let cleaned_id := student_id.filter (fun c => isLowerAlpha c || isDigitChar c)
    if matchesLocal cleaned_id then some (cleaned_id ++ domainSuffix)
    else
      let letters := student_id.filter isLowerAlpha
      let numbers := student_id.filter isDigitChar
      if 2 ≤ letters.length ∧ 5 ≤ numbers.length then
        let formatted_id := letters.take 2 ++ numbers.take 5
        if matchesLocal formatted_id then some (formatted_id ++ domainSuffix) else none
      else none

/-- Per-student score maps keyed by raw identifiers, the input of
validate_all_student_ids. -/
abbrev RawBatch := List (List Char × Scores)

/-- Dictionary insertion with overwrite-in-place, as Python assignment into
formatted_scores; a colliding canonical key keeps its position and takes the
new value. -/
def dictInsert : List (List Char × Scores) → List Char → Scores → List (List Char × Scores)
  | [], k, v => [(k, v)]
  | p :: rest, k, v => if p.1 = k then (k, v) :: rest else p :: dictInsert rest k v

/-- One iteration of the loop of validate_all_student_ids: a success is
inserted into formatted_scores, a failure appends the raw id to the
invalid list. -/
def validateStep (acc : List (List Char × Scores) × List (List Char)) (p : List Char × Scores) :
    List (List Char × Scores) × List (List Char) :=
  match validate_and_format_student_id p.1 with
  | some fid => (dictInsert acc.1 fid p.2, acc.2)
  | none => (acc.1, acc.2 ++ [p.1])

/-- validate_all_student_ids from src/data.py: process every record, then
raise one aggregated error naming each offending raw id, or return the map
keyed by the formatted identifiers. The error value carries the offending
raw ids enumerated by the message. -/
def validate_all_student_ids (student_scores : RawBatch) :
    Except (List (List Char)) (List (List Char × Scores)) :=
  let r := student_scores.foldl validateStep ([], [])
  if r.2 ≠ [] then Except.error r.2 else Except.ok r.1

/-- A cleaned grid cell: missing or a text value. -/
abbrev Cell := Option String

/-- A cleaned grid: rows of cells. -/
abbrev Grid := List (List Cell)

/-- Number of missing cells in column j. -/
def colMissingCount (grid : Grid) (j : ℕ) : ℕ :=
  (grid.filter fun row => (row.getD j none).isNone).length

/-- Pandas df.isnull().mean() for column j: fraction of missing cells. -/
def colMissingFrac (grid : Grid) (j : ℕ) : ℚ :=
  (colMissingCount grid j : ℚ) / (grid.length : ℚ)

/-- The column-keep test of line 248 of src/data.py: a column survives when
its missing fraction compares strictly below 0.7; on a rowless frame the
mean is NaN and the comparison is false, so nothing survives. -/
def keepCol (grid : Grid) (j : ℕ) : Bool :=
  decide (grid ≠ []) && decide (colMissingFrac grid j < 7/10)

/-- Width of a rectangular grid. -/
def gridWidth (grid : Grid) : ℕ := (grid.map List.length).foldr Nat.max 0

/-- The column indices surviving the sparsity rule. -/
def survivingCols (grid : Grid) : List ℕ :=
  (List.range (gridWidth grid)).filter (keepCol grid)

/-- Pandas df.loc with the mask df.isnull().mean() below 0.7: every row restricted to the
surviving columns. -/
def dropSparseCols (grid : Grid) : Grid :=
  grid.map fun row => (survivingCols grid).map fun j => row.getD j none

/-! Helper lemmas about the embedding. -/

/-- The accumulation loop over assessment items equals the start value plus
the sum of the normalized contributions. -/
lemma foldl_add_normalized (scores : Scores) (modules : List AssessmentItem) :
    ∀ a : ℚ, modules.foldl (fun acc item => acc + normalizedItem scores item) a =
      a + (modules.map (normalizedItem scores)).sum := by
  induction modules with
  | nil => intro a; simp
  | cons item rest ih =>
    intro a
    simp only [List.foldl_cons, List.map_cons, List.sum_cons, ih]
    ring

/-- Looking up a key of a dictionary built by mapping a function over the
entries of a dictionary with distinct keys. -/
lemma alookup_map_of_mem {β γ : Type} (f : String × β → γ) :
    ∀ (l : List (String × β)) (k : String) (v : β),
      (l.map Prod.fst).Nodup → (k, v) ∈ l →
      alookup (l.map fun p => (p.1, f p)) k = some (f (k, v)) := by
  intro l
  induction l with
  | nil => intro k v _ hm; cases hm
  | cons p rest ih =>
    intro k v hnd hm
    simp only [List.map_cons, List.nodup_cons] at hnd
    rcases List.mem_cons.mp hm with heq | hmem
    · subst heq
      simp [alookup]
    · have hk : p.1 ≠ k := by
        intro h
        exact hnd.1 (h ▸ List.mem_map.mpr ⟨(k, v), hmem, rfl⟩)
      simp only [List.map_cons, alookup, if_neg hk]
      exact ih k v hnd.2 hmem

/-- The guarded branch of the per-CLO score: with nonzero total weight the
score is the rounded normalized ratio. -/
lemma cloScoreFor_formula (modules : List AssessmentItem) (scores : Scores)
    (h : (modules.map AssessmentItem.weight).sum ≠ 0) :
    cloScoreFor modules scores =
      pyRound2 (((modules.map (normalizedItem scores)).sum /
        (modules.map AssessmentItem.weight).sum) * 100) := by
  simp [cloScoreFor, foldl_add_normalized, h]

/-- The unguarded branch of the per-CLO score: zero total weight gives 0. -/
lemma cloScoreFor_zero (modules : List AssessmentItem) (scores : Scores)
    (h : (modules.map AssessmentItem.weight).sum = 0) :
    cloScoreFor modules scores = 0 := by
  simp [cloScoreFor, h]

/-- Rounding an integer changes nothing. -/
lemma roundHalfEven_intCast (m : ℤ) : roundHalfEven (m : ℚ) = m := by
  simp [roundHalfEven]

/-- pyRound2 fixes integral values. -/
lemma pyRound2_intCast (m : ℤ) : pyRound2 (m : ℚ) = (m : ℚ) := by
  have h : ((m : ℚ)) * 100 = ((m * 100 : ℤ) : ℚ) := by push_cast; ring
  rw [pyRound2, h, roundHalfEven_intCast]
  push_cast
  field_simp

/-! Claim theorems. -/

/-- C1 counterexample: the CLO-scoring operation receives only
clo_assessments, so a CLO that is explicitly defined in clo_definitions but
has no entry in clo_assessments is absent from every student map, not
present with score 0. Here "CLO 2" is defined, clo_assessments is empty,
and the student map of the only student has no key "CLO 2". -/
theorem c1_defined_clo_counterexample :
    (alookup [("CLO 2", CloDef.mk "Apply program outcome data in course review" "C3")]
      "CLO 2").isSome = true ∧
    calculate_clo_scores [] [("hm08298@st.habib.edu.pk", [])] =
      [("hm08298@st.habib.edu.pk", [])] ∧
    ((calculate_clo_scores [] [("hm08298@st.habib.edu.pk", [])]).map
      fun p => alookup p.2 "CLO 2") = [none] :=
  ⟨rfl, rfl, rfl⟩

/-- C1 amended: for every student and every CLO present in the
clo_assessments argument (not in clo_definitions, which the operation never
sees), the student map contains that CLO key; a CLO entry with an empty
assessment list appears with score 0. -/
theorem c1_amended_clo_keys (ca : CloAssessments) (ss : StudentScores) (sid : String)
    (scores : Scores) (clo : String) (modules : List AssessmentItem)
    (hndS : (ss.map Prod.fst).Nodup) (hndC : (ca.map Prod.fst).Nodup)
    (hmS : (sid, scores) ∈ ss) (hmC : (clo, modules) ∈ ca) :
    ∃ inner, alookup (calculate_clo_scores ca ss) sid = some inner ∧
      (alookup inner clo).isSome = true ∧
      (modules = [] → alookup inner clo = some 0) := by
  refine ⟨ca.map fun q => (q.1, cloScoreFor q.2 scores), ?_, ?_, ?_⟩
  · simp only [calculate_clo_scores]
    exact alookup_map_of_mem _ ss sid scores hndS hmS
  · rw [alookup_map_of_mem (fun q => cloScoreFor q.2 scores) ca clo modules hndC hmC]
    rfl
  · intro h
    subst h
    rw [alookup_map_of_mem (fun q => cloScoreFor q.2 scores) ca clo [] hndC hmC]
    simp [cloScoreFor]

/-- C1 amended witness: one CLO with an empty assessment list, one student;
the key is present with score 0. -/
theorem c1_amended_clo_keys_witness :
    ∃ inner, alookup (calculate_clo_scores [("CLO 1", [])] [("s1", [])]) "s1" = some inner ∧
      alookup inner "CLO 1" = some 0 := by
  obtain ⟨inner, h1, _, h3⟩ :=
    c1_amended_clo_keys [("CLO 1", [])] [("s1", [])] "s1" [] "CLO 1" []
      (by decide) (by decide) (by decide) (by decide)
  exact ⟨inner, h1, h3 rfl⟩

/-- C2: for every student and every CLO with nonzero total weight, the score
is round of the weighted normalized sum over the total weight times 100,
where an item with zero max score contributes 0, an item with nonzero max
score contributes (score / max_score) * weight, and a missing or
non-numeric raw score counts as 0. -/
theorem c2_clo_score_formula (ca : CloAssessments) (ss : StudentScores) (sid : String)
    (scores : Scores) (clo : String) (modules : List AssessmentItem)
    (hndS : (ss.map Prod.fst).Nodup) (hndC : (ca.map Prod.fst).Nodup)
    (hmS : (sid, scores) ∈ ss) (hmC : (clo, modules) ∈ ca)
    (hw : (modules.map AssessmentItem.weight).sum ≠ 0) :
    (∃ inner, alookup (calculate_clo_scores ca ss) sid = some inner ∧
      alookup inner clo =
        some (pyRound2 (((modules.map (normalizedItem scores)).sum /
          (modules.map AssessmentItem.weight).sum) * 100))) ∧
    (∀ item : AssessmentItem, item.maxScore = 0 → normalizedItem scores item = 0) ∧
    (∀ item : AssessmentItem, item.maxScore ≠ 0 →
      normalizedItem scores item = (moduleScore scores item.module / item.maxScore) * item.weight) ∧
    (∀ m : String, alookup scores m = none → moduleScore scores m = 0) ∧
    (∀ m : String, alookup scores m = some Raw.bad → moduleScore scores m = 0) := by
  refine ⟨⟨ca.map fun q => (q.1, cloScoreFor q.2 scores), ?_, ?_⟩, ?_, ?_, ?_, ?_⟩
  · simp only [calculate_clo_scores]
    exact alookup_map_of_mem _ ss sid scores hndS hmS
  · rw [alookup_map_of_mem (fun q => cloScoreFor q.2 scores) ca clo modules hndC hmC,
      cloScoreFor_formula modules scores hw]
  · intro item h
    simp [normalizedItem, h]
  · intro item h
    simp [normalizedItem, h]
  · intro m h
    simp [moduleScore, h]
  · intro m h
    simp [moduleScore, h]

/-- C2 witness: one CLO, one assessment (max 20, weight 15), one student
scoring 18: the CLO score is 90. -/
theorem c2_clo_score_formula_witness :
    ∃ inner,
      alookup (calculate_clo_scores [("CLO 1", [AssessmentItem.mk "Q1" 20 15])]
        [("s1", [("Q1", Raw.num 18)])]) "s1" = some inner ∧
      alookup inner "CLO 1" = some 90 := by
  obtain ⟨⟨inner, h1, h2⟩, _⟩ :=
    c2_clo_score_formula [("CLO 1", [AssessmentItem.mk "Q1" 20 15])]
      [("s1", [("Q1", Raw.num 18)])] "s1" [("Q1", Raw.num 18)] "CLO 1"
      [AssessmentItem.mk "Q1" 20 15] (by decide) (by decide) (by decide) (by decide)
      (by norm_num)
  refine ⟨inner, h1, ?_⟩
  rw [h2]
  congr 1
  have hv : (([AssessmentItem.mk "Q1" 20 15].map (normalizedItem [("Q1", Raw.num 18)])).sum /
      ([AssessmentItem.mk "Q1" 20 15].map AssessmentItem.weight).sum) * 100 = ((90 : ℤ) : ℚ) := by
    simp [normalizedItem, moduleScore, alookup]
    norm_num
  rw [hv, pyRound2_intCast]
  norm_num

/-- C3: a CLO whose assessments have zero total weight gets score 0 for
every student; the division is never reached because the branch on
total_weight being nonzero guards it. -/
theorem c3_zero_total_weight (ca : CloAssessments) (ss : StudentScores) (sid : String)
    (scores : Scores) (clo : String) (modules : List AssessmentItem)
    (hndS : (ss.map Prod.fst).Nodup) (hndC : (ca.map Prod.fst).Nodup)
    (hmS : (sid, scores) ∈ ss) (hmC : (clo, modules) ∈ ca)
    (hw : (modules.map AssessmentItem.weight).sum = 0) :
    ∃ inner, alookup (calculate_clo_scores ca ss) sid = some inner ∧
      alookup inner clo = some 0 := by
  refine ⟨ca.map fun q => (q.1, cloScoreFor q.2 scores), ?_, ?_⟩
  · simp only [calculate_clo_scores]
    exact alookup_map_of_mem _ ss sid scores hndS hmS
  · rw [alookup_map_of_mem (fun q => cloScoreFor q.2 scores) ca clo modules hndC hmC,
      cloScoreFor_zero modules scores hw]

/-- C3 witness: one assessment of weight 0: the CLO score is 0 although the
student has a raw score. -/
theorem c3_zero_total_weight_witness :
    ∃ inner,
      alookup (calculate_clo_scores [("CLO 1", [AssessmentItem.mk "Q1" 20 0])]
        [("s1", [("Q1", Raw.num 18)])]) "s1" = some inner ∧
      alookup inner "CLO 1" = some 0 :=
  c3_zero_total_weight [("CLO 1", [AssessmentItem.mk "Q1" 20 0])]
    [("s1", [("Q1", Raw.num 18)])] "s1" [("Q1", Raw.num 18)] "CLO 1"
    [AssessmentItem.mk "Q1" 20 0] (by decide) (by decide) (by decide) (by decide)
    (by norm_num)

set_option maxHeartbeats 2000000 in
/-- C7: the letter-grade bands, evaluated high to low with inclusive lower
thresholds, and the four boundary values named by the specification. -/
theorem c7_letter_grade_bands :
    (∀ p : ℚ, 95 ≤ p → get_letter_grade p = "A+") ∧
    (∀ p : ℚ, 90 ≤ p → p < 95 → get_letter_grade p = "A") ∧
    (∀ p : ℚ, 85 ≤ p → p < 90 → get_letter_grade p = "A-") ∧
    (∀ p : ℚ, 80 ≤ p → p < 85 → get_letter_grade p = "B+") ∧
    (∀ p : ℚ, 75 ≤ p → p < 80 → get_letter_grade p = "B") ∧
    (∀ p : ℚ, 70 ≤ p → p < 75 → get_letter_grade p = "B-") ∧
    (∀ p : ℚ, 67 ≤ p → p < 70 → get_letter_grade p = "C+") ∧
    (∀ p : ℚ, 63 ≤ p → p < 67 → get_letter_grade p = "C") ∧
    (∀ p : ℚ, 60 ≤ p → p < 63 → get_letter_grade p = "C-") ∧
    (∀ p : ℚ, p < 60 → get_letter_grade p = "F") ∧
    get_letter_grade 95 = "A+" ∧ get_letter_grade (9499/100) = "A" ∧
    get_letter_grade 60 = "C-" ∧ get_letter_grade (5999/100) = "F" := by
  refine ⟨fun p h1 => ?_, fun p h1 h2 => ?_, fun p h1 h2 => ?_, fun p h1 h2 => ?_,
    fun p h1 h2 => ?_, fun p h1 h2 => ?_, fun p h1 h2 => ?_, fun p h1 h2 => ?_,
    fun p h1 h2 => ?_, fun p h1 => ?_, ?_, ?_, ?_, ?_⟩ <;>
    simp only [get_letter_grade] <;>
    split_ifs <;>
    first | rfl | (exfalso; linarith)

/-- C7 witness: a value inside the top band. -/
theorem c7_letter_grade_bands_witness : get_letter_grade 97 = "A+" :=
  c7_letter_grade_bands.1 97 (by norm_num)

/-- C8: the overall grade pools every assessment of every CLO into one flat
list, computes the global total weight once, and per student returns the
rounded normalized ratio, or 0 when the global total weight is zero; the
normalization and missing-score rules are those of the CLO scoring
(normalizedItem and moduleScore). -/
theorem c8_overall_grade (ca : CloAssessments) (ss : StudentScores) (sid : String)
    (scores : Scores) (hndS : (ss.map Prod.fst).Nodup) (hmS : (sid, scores) ∈ ss) :
    alookup (calculate_grades ca ss) sid =
      some
        (if ((ca.map Prod.snd).flatten.map AssessmentItem.weight).sum ≠ 0 then
          pyRound2 ((((ca.map Prod.snd).flatten.map (normalizedItem scores)).sum /
            ((ca.map Prod.snd).flatten.map AssessmentItem.weight).sum) * 100)
        else 0) := by
  have h := alookup_map_of_mem
    (fun p => if ((ca.map Prod.snd).flatten.map AssessmentItem.weight).sum ≠ 0 then
        pyRound2 (((ca.map Prod.snd).flatten.foldl
          (fun acc item => acc + normalizedItem p.2 item) 0 /
          ((ca.map Prod.snd).flatten.map AssessmentItem.weight).sum) * 100)
      else 0)
    ss sid scores hndS hmS
  simp only [calculate_grades]
  rw [h]
  simp only [foldl_add_normalized, zero_add]

/-- C8 witness: two CLOs pooled, weights 15 and 5, max scores 20 and 10, one
student scoring 18 and 5: the overall grade is round(((18/20)*15 +
(5/10)*5) / 20 * 100, 2) = 80. -/
theorem c8_overall_grade_witness :
    alookup (calculate_grades
      [("CLO 1", [AssessmentItem.mk "Q1" 20 15]), ("CLO 2", [AssessmentItem.mk "Q2" 10 5])]
      [("s1", [("Q1", Raw.num 18), ("Q2", Raw.num 5)])]) "s1" = some 80 := by
  have h := c8_overall_grade
    [("CLO 1", [AssessmentItem.mk "Q1" 20 15]), ("CLO 2", [AssessmentItem.mk "Q2" 10 5])]
    [("s1", [("Q1", Raw.num 18), ("Q2", Raw.num 5)])] "s1"
    [("Q1", Raw.num 18), ("Q2", Raw.num 5)] (by decide) (by decide)
  rw [h]
  congr 1
  have hw : (([("CLO 1", [AssessmentItem.mk "Q1" 20 15]),
      ("CLO 2", [AssessmentItem.mk "Q2" 10 5])].map Prod.snd).flatten.map
      AssessmentItem.weight).sum = 20 := by
    norm_num
  have hn : (([("CLO 1", [AssessmentItem.mk "Q1" 20 15]),
      ("CLO 2", [AssessmentItem.mk "Q2" 10 5])].map Prod.snd).flatten.map
      (normalizedItem [("Q1", Raw.num 18), ("Q2", Raw.num 5)])).sum = 16 := by
    simp [normalizedItem, moduleScore, alookup]
    norm_num
  rw [hw, hn]
  norm_num
  have h80 := pyRound2_intCast 80
  push_cast at h80
  exact h80

/-- A plo_map entry with zero accumulated weight makes the per-student
comprehension raise. -/
lemma studentPlo_eq_none (accs : List PloAcc) (a : PloAcc) (ha : a ∈ accs)
    (hz : a.total_weight = 0) : studentPlo accs = none := by
  induction accs with
  | nil => cases ha
  | cons b rest ih =>
    rcases List.mem_cons.mp ha with heq | hmem
    · subst heq
      simp [studentPlo, hz]
    · rw [studentPlo]
      split_ifs with h
      · rw [ih hmem]
        rfl
      · rfl

/-- A raising student makes the whole PLO-scoring call raise. -/
lemma calculate_plo_scores_eq_none (cs : List (String × List (String × ℚ)))
    (ctp : List (String × PloMapping)) (sid : String) (cloVals : List (String × ℚ))
    (hm : (sid, cloVals) ∈ cs) (h : studentPlo (ploAccum cloVals ctp) = none) :
    calculate_plo_scores cs ctp = none := by
  induction cs with
  | nil => cases hm
  | cons p rest ih =>
    rcases List.mem_cons.mp hm with heq | hmem
    · rw [calculate_plo_scores]
      have : p.2 = cloVals := by rw [← heq]
      rw [this, h]
    · rw [calculate_plo_scores]
      rcases hs : studentPlo (ploAccum p.2 ctp) with _ | inner
      · rfl
      · rw [ih hmem]
        rfl

/-- C10: when the mapping weights contributing to some PLO of some student
accumulate to zero total weight, the PLO-scoring operation hits the
unguarded division and raises (returns none) instead of producing a value.
The CLO-score and overall-grade paths guard their divisions; this one does
not. -/
theorem c10_plo_zero_weight_raises (cs : List (String × List (String × ℚ)))
    (ctp : List (String × PloMapping)) (sid : String) (cloVals : List (String × ℚ))
    (a : PloAcc) (hm : (sid, cloVals) ∈ cs) (ha : a ∈ ploAccum cloVals ctp)
    (hz : a.total_weight = 0) :
    calculate_plo_scores cs ctp = none :=
  calculate_plo_scores_eq_none cs ctp sid cloVals hm
    (studentPlo_eq_none (ploAccum cloVals ctp) a ha hz)

/-- C10 witness: exactly one contributing CLO whose mapping weight is 0:
the whole call raises. -/
theorem c10_plo_zero_weight_raises_witness :
    calculate_plo_scores [("s1", [("CLO 1", (50 : ℚ))])]
      [("CLO 1", PloMapping.mk "PLO 1" 0)] = none :=
  c10_plo_zero_weight_raises [("s1", [("CLO 1", (50 : ℚ))])]
    [("CLO 1", PloMapping.mk "PLO 1" 0)] "s1" [("CLO 1", (50 : ℚ))]
    (PloAcc.mk "PLO 1" (50 * 0) 0) (List.mem_singleton.mpr rfl)
    (List.mem_singleton.mpr rfl) rfl

/-- Probing the accumulator after one dictionary insertion: the inserted PLO
entry is created or incremented, every other entry is untouched. -/
lemma findAcc_addPlo (plo₀ : String) (s w : ℚ) (plo : String) :
    ∀ accs : List PloAcc,
      findAcc (addPlo accs plo₀ s w) plo =
        if plo₀ = plo then
          match findAcc accs plo with
          | some a => some ⟨a.plo, a.sum + s * w, a.total_weight + w⟩
          | none => some ⟨plo₀, s * w, w⟩
        else findAcc accs plo := by
  intro accs
  induction accs with
  | nil => by_cases h : plo₀ = plo <;> simp [addPlo, findAcc, h]
  | cons a rest ih =>
    by_cases hp : plo₀ = plo
    · subst hp
      by_cases hap : a.plo = plo₀
      · simp [addPlo, findAcc, hap]
      · simp [addPlo, findAcc, hap, ih]
    · by_cases hap : a.plo = plo₀
      · have h2 : a.plo ≠ plo := by rw [hap]; exact hp
        simp [addPlo, findAcc, hap, hp, h2]
      · by_cases hq : a.plo = plo <;>
          simp [addPlo, findAcc, hap, hp, hq, ih, Ne.symm hp]

/-- Folding the per-student loop from any starting accumulator: the entry
for a PLO accumulates exactly the sums over its contributions. -/
lemma findAcc_ploAccum_general (ctp : List (String × PloMapping)) (plo : String) :
    ∀ (cloVals : List (String × ℚ)) (accs : List PloAcc),
      findAcc (cloVals.foldl (ploStep ctp) accs) plo =
        match findAcc accs plo with
        | some a =>
            some ⟨a.plo, a.sum + ((contribs cloVals ctp plo).map fun c => c.1 * c.2).sum,
              a.total_weight + ((contribs cloVals ctp plo).map Prod.snd).sum⟩
        | none =>
            if contribs cloVals ctp plo = [] then none
            else
              some ⟨plo, ((contribs cloVals ctp plo).map fun c => c.1 * c.2).sum,
                ((contribs cloVals ctp plo).map Prod.snd).sum⟩ := by
  intro cloVals
  induction cloVals with
  | nil =>
    intro accs
    simp only [List.foldl_nil, contribs, List.filterMap_nil, List.map_nil, List.sum_nil,
      add_zero]
    rcases h : findAcc accs plo with _ | a
    · simp
    · rfl
  | cons q rest ih =>
    intro accs
    rw [List.foldl_cons, ih (ploStep ctp accs q)]
    rcases hq : alookup ctp q.1 with _ | m
    · have hstep : ploStep ctp accs q = accs := by simp [ploStep, hq]
      have hcon : contribs (q :: rest) ctp plo = contribs rest ctp plo := by
        simp [contribs, hq]
      rw [hstep, hcon]
    · have hstep : ploStep ctp accs q = addPlo accs m.PLO q.2 m.weight := by
        simp [ploStep, hq]
      rw [hstep, findAcc_addPlo]
      by_cases hp : m.PLO = plo
      · have hcon : contribs (q :: rest) ctp plo = (q.2, m.weight) :: contribs rest ctp plo := by
          simp [contribs, hq, hp]
        rw [if_pos hp, hcon]
        rcases h : findAcc accs plo with _ | a
        · simp [hp]
        · simp [hp, add_assoc]
      · have hcon : contribs (q :: rest) ctp plo = contribs rest ctp plo := by
          simp [contribs, hq, hp]
        rw [if_neg hp, hcon]

/-- When every accumulated weight is nonzero, the per-student comprehension
returns the rounded quotients in accumulator order. -/
lemma studentPlo_eq_some (accs : List PloAcc) (h : ∀ a ∈ accs, a.total_weight ≠ 0) :
    studentPlo accs = some (accs.map fun a => (a.plo, pyRound2 (a.sum / a.total_weight))) := by
  induction accs with
  | nil => rfl
  | cons a rest ih =>
    rw [studentPlo, if_pos (h a (List.mem_cons_self a rest)),
      ih fun b hb => h b (List.mem_cons_of_mem a hb)]
    rfl

/-- When every accumulated weight of every student is nonzero, the whole
PLO-scoring call returns the per-student maps in order. -/
lemma calculate_plo_scores_eq_some (cs : List (String × List (String × ℚ)))
    (ctp : List (String × PloMapping))
    (h : ∀ p ∈ cs, ∀ a ∈ ploAccum p.2 ctp, a.total_weight ≠ 0) :
    calculate_plo_scores cs ctp =
      some (cs.map fun p =>
        (p.1, (ploAccum p.2 ctp).map fun a => (a.plo, pyRound2 (a.sum / a.total_weight)))) := by
  induction cs with
  | nil => rfl
  | cons p rest ih =>
    rw [calculate_plo_scores,
      studentPlo_eq_some (ploAccum p.2 ctp) (h p (List.mem_cons_self p rest)),
      ih fun q hq a ha => h q (List.mem_cons_of_mem p hq) a ha]
    rfl

/-- C4: with nonzero accumulated weights, the PLO-scoring operation returns,
per student, the map over the accumulated PLO entries of the rounded
weighted average; the entry for a PLO exists exactly when some CLO of the
student maps to it, and then carries the sums of score times weight and of
weight over exactly those contributions, so its value is
round of the weighted sum over the weight total. A CLO without a mapping
contributes nothing and a PLO with no contributions is absent, not 0. -/
theorem c4_plo_weighted_average (cs : List (String × List (String × ℚ)))
    (ctp : List (String × PloMapping))
    (h : ∀ p ∈ cs, ∀ a ∈ ploAccum p.2 ctp, a.total_weight ≠ 0) :
    calculate_plo_scores cs ctp =
      some (cs.map fun p =>
        (p.1, (ploAccum p.2 ctp).map fun a => (a.plo, pyRound2 (a.sum / a.total_weight)))) ∧
    ∀ (cloVals : List (String × ℚ)) (plo : String),
      findAcc (ploAccum cloVals ctp) plo =
        if contribs cloVals ctp plo = [] then none
        else
          some ⟨plo, ((contribs cloVals ctp plo).map fun c => c.1 * c.2).sum,
            ((contribs cloVals ctp plo).map Prod.snd).sum⟩ := by
  constructor
  · exact calculate_plo_scores_eq_some cs ctp h
  · intro cloVals plo
    have hgen := findAcc_ploAccum_general ctp plo cloVals []
    simpa [findAcc, ploAccum] using hgen

/-- C4 witness: CLO A score 80 with weight 2 and CLO B score 90 with
weight 3, both mapping to PLO 1: the PLO score is
round((80 * 2 + 90 * 3) / 5, 2) = 86. -/
theorem c4_plo_weighted_average_witness :
    calculate_plo_scores [("s1", [("CLO A", (80 : ℚ)), ("CLO B", 90)])]
      [("CLO A", PloMapping.mk "PLO 1" 2), ("CLO B", PloMapping.mk "PLO 1" 3)] =
      some [("s1", [("PLO 1", 86)])] := by
  have hacc : ploAccum [("CLO A", (80 : ℚ)), ("CLO B", 90)]
      [("CLO A", PloMapping.mk "PLO 1" 2), ("CLO B", PloMapping.mk "PLO 1" 3)] =
      [PloAcc.mk "PLO 1" (80 * 2 + 90 * 3) (2 + 3)] := rfl
  have h := (c4_plo_weighted_average [("s1", [("CLO A", (80 : ℚ)), ("CLO B", 90)])]
    [("CLO A", PloMapping.mk "PLO 1" 2), ("CLO B", PloMapping.mk "PLO 1" 3)]
    (by
      intro p hp a ha
      rw [List.mem_singleton] at hp
      subst hp
      rw [hacc, List.mem_singleton] at ha
      subst ha
      norm_num)).1
  rw [h]
  simp only [List.map_cons, List.map_nil, hacc]
  have hval : ((80 : ℚ) * 2 + 90 * 3) / (2 + 3) = ((86 : ℤ) : ℚ) := by norm_num
  simp only [hval, pyRound2_intCast]
  norm_num

/-- The invalid-id accumulator of the validation loop collects exactly the
raw ids that fail normalization, in order, after whatever it started with. -/
lemma validate_foldl_snd (ss : RawBatch) :
    ∀ (m : List (List Char × Scores)) (errs : List (List Char)),
      (ss.foldl validateStep (m, errs)).2 =
        errs ++ (ss.map Prod.fst).filter fun r => (validate_and_format_student_id r).isNone := by
  induction ss with
  | nil => intro m errs; simp
  | cons p rest ih =>
    intro m errs
    rw [List.foldl_cons]
    rcases hv : validate_and_format_student_id p.1 with _ | fid
    · rw [show validateStep (m, errs) p = (m, errs ++ [p.1]) from by simp [validateStep, hv],
        ih]
      simp [hv]
    · rw [show validateStep (m, errs) p = (dictInsert m fid p.2, errs) from by
        simp [validateStep, hv], ih]
      simp [hv]

/-- A key of the dictionary after insertion is an old key or the inserted
one. -/
lemma mem_keys_dictInsert (k fid : List Char) (v : Scores) :
    ∀ m : List (List Char × Scores),
      k ∈ (dictInsert m fid v).map Prod.fst → k ∈ m.map Prod.fst ∨ k = fid := by
  intro m
  induction m with
  | nil =>
    intro h
    simp [dictInsert] at h
    exact Or.inr h
  | cons p rest ih =>
    intro h
    rw [dictInsert] at h
    by_cases hp : p.1 = fid
    · rw [if_pos hp] at h
      simp only [List.map_cons, List.mem_cons] at h ⊢
      rcases h with h | h
      · exact Or.inr h
      · exact Or.inl (Or.inr h)
    · rw [if_neg hp] at h
      simp only [List.map_cons, List.mem_cons] at h ⊢
      rcases h with h | h
      · exact Or.inl (Or.inl h)
      · rcases ih h with h2 | h2
        · exact Or.inl (Or.inr h2)
        · exact Or.inr h2

/-- Every key of the valid-id dictionary built by the validation loop is an
initial key or the normalization of some processed raw id. -/
lemma validate_foldl_fst_keys (ss : RawBatch) :
    ∀ (m : List (List Char × Scores)) (errs : List (List Char)) (k : List Char),
      k ∈ (ss.foldl validateStep (m, errs)).1.map Prod.fst →
      k ∈ m.map Prod.fst ∨ ∃ p ∈ ss, validate_and_format_student_id p.1 = some k := by
  induction ss with
  | nil =>
    intro m errs k h
    exact Or.inl (by simpa using h)
  | cons p rest ih =>
    intro m errs k h
    rw [List.foldl_cons] at h
    rcases hv : validate_and_format_student_id p.1 with _ | fid
    · rw [show validateStep (m, errs) p = (m, errs ++ [p.1]) from by simp [validateStep, hv]]
        at h
      rcases ih m (errs ++ [p.1]) k h with h2 | ⟨q, hq, hqv⟩
      · exact Or.inl h2
      · exact Or.inr ⟨q, List.mem_cons_of_mem p hq, hqv⟩
    · rw [show validateStep (m, errs) p = (dictInsert m fid p.2, errs) from by
        simp [validateStep, hv]] at h
      rcases ih (dictInsert m fid p.2) errs k h with h2 | ⟨q, hq, hqv⟩
      · rcases mem_keys_dictInsert k fid p.2 m h2 with h3 | h3
        · exact Or.inl h3
        · exact Or.inr ⟨p, List.mem_cons_self p rest, by rw [hv, h3]⟩
      · exact Or.inr ⟨q, List.mem_cons_of_mem p hq, hqv⟩

/-- C5: every record is processed before raising; if some raw id fails
normalization the call raises exactly one error enumerating exactly the
failing raw ids (every offender, no valid id) in input order; if all raw
ids normalize, it returns a map whose every key is the canonical
normalization of some raw id of the batch. -/
theorem c5_aggregate_id_errors (ss : RawBatch) :
    ((∃ p ∈ ss, validate_and_format_student_id p.1 = none) →
      validate_all_student_ids ss =
        Except.error
          ((ss.map Prod.fst).filter fun r => (validate_and_format_student_id r).isNone)) ∧
    ((∀ p ∈ ss, (validate_and_format_student_id p.1).isSome = true) →
      ∃ m, validate_all_student_ids ss = Except.ok m ∧
        ∀ k ∈ m.map Prod.fst, ∃ p ∈ ss, validate_and_format_student_id p.1 = some k) := by
  have hsnd := validate_foldl_snd ss [] []
  rw [List.nil_append] at hsnd
  constructor
  · rintro ⟨p, hp, hv⟩
    have hmem : p.1 ∈ (ss.map Prod.fst).filter
        fun r => (validate_and_format_student_id r).isNone :=
      List.mem_filter.mpr ⟨List.mem_map.mpr ⟨p, hp, rfl⟩, by rw [hv]; rfl⟩
    have hne : (ss.foldl validateStep ([], [])).2 ≠ [] := by
      rw [hsnd]
      exact List.ne_nil_of_mem hmem
    simp only [validate_all_student_ids]
    rw [if_pos hne, hsnd]
  · intro hall
    have hnil : (ss.foldl validateStep ([], [])).2 = [] := by
      rw [hsnd]
      apply List.filter_eq_nil_iff.mpr
      intro a ha
      rcases List.mem_map.mp ha with ⟨q, hq, rfl⟩
      have := hall q hq
      rcases hval : validate_and_format_student_id q.1 with _ | fid
      · rw [hval] at this
        cases this
      · simp
    simp only [validate_all_student_ids]
    rw [if_neg fun hne => hne hnil]
    refine ⟨(ss.foldl validateStep ([], [])).1, rfl, ?_⟩
    intro k hk
    rcases validate_foldl_fst_keys ss [] [] k hk with h2 | h2
    · simp at h2
    · exact h2

/-- C5 witness: a batch with one valid and one invalid raw id raises one
error naming only the invalid one. -/
theorem c5_aggregate_id_errors_witness :
    validate_all_student_ids [("hm08298".data, []), ("12345".data, [])] =
      Except.error ["12345".data] := by
  have h := (c5_aggregate_id_errors [("hm08298".data, []), ("12345".data, [])]).1
    ⟨("12345".data, []), by decide, by decide⟩
  rw [h]
  exact congrArg Except.error (by decide)

/-- A lowercase letter is not a digit. -/
lemma not_digit_of_lower {c : Char} (h : isLowerAlpha c = true) : isDigitChar c = false := by
  simp only [isLowerAlpha, isDigitChar, decide_eq_true_eq, decide_eq_false_iff_not] at *
  omega

/-- A digit is not a lowercase letter. -/
lemma not_lower_of_digit {c : Char} (h : isDigitChar c = true) : isLowerAlpha c = false := by
  simp only [isLowerAlpha, isDigitChar, decide_eq_true_eq, decide_eq_false_iff_not] at *
  omega

/-- A string matching the local grammar has exactly its first two characters
as letters and its last five as digits. -/
lemma matchesLocal_filters {t : List Char} (h : matchesLocal t = true) :
    t.filter isLowerAlpha = t.take 2 ∧ t.filter isDigitChar = t.drop 2 ∧
      (t.take 2).length = 2 ∧ (t.drop 2).length = 5 := by
  simp only [matchesLocal, Bool.and_eq_true, decide_eq_true_eq, List.all_eq_true] at h
  obtain ⟨⟨h7, hA⟩, hD⟩ := h
  have hfA : t.filter isLowerAlpha = t.take 2 := by
    conv_lhs => rw [← List.take_append_drop 2 t]
    rw [List.filter_append, List.filter_eq_self.mpr hA,
      List.filter_eq_nil_iff.mpr fun c hc => by simp [not_lower_of_digit (hD c hc)],
      List.append_nil]
  have hfD : t.filter isDigitChar = t.drop 2 := by
    conv_lhs => rw [← List.take_append_drop 2 t]
    rw [List.filter_append, List.filter_eq_nil_iff.mpr
        fun c hc => by simp [not_digit_of_lower (hA c hc)],
      List.filter_eq_self.mpr hD, List.nil_append]
  refine ⟨hfA, hfD, ?_, ?_⟩
  · rw [List.length_take, h7]
    omega
  · rw [List.length_drop, h7]

/-- A string matching the local grammar is the first two of its letters
followed by the first five of its digits. -/
lemma matchesLocal_decomp {t : List Char} (h : matchesLocal t = true) :
    t = (t.filter isLowerAlpha).take 2 ++ (t.filter isDigitChar).take 5 := by
  obtain ⟨hfA, hfD, hl1, hl2⟩ := matchesLocal_filters h
  rw [hfA, hfD, List.take_of_length_le (le_of_eq hl1),
    List.take_of_length_le (le_of_eq hl2), List.take_append_drop]

/-- Stripping non-alphanumeric characters does not change the letters. -/
lemma filter_lower_cleaned (s : List Char) :
    (s.filter fun c => isLowerAlpha c || isDigitChar c).filter isLowerAlpha =
      s.filter isLowerAlpha := by
  rw [List.filter_filter]
  apply List.filter_congr
  intro c _
  cases hla : isLowerAlpha c <;> simp [hla]

/-- Stripping non-alphanumeric characters does not change the digits. -/
lemma filter_digit_cleaned (s : List Char) :
    (s.filter fun c => isLowerAlpha c || isDigitChar c).filter isDigitChar =
      s.filter isDigitChar := by
  rw [List.filter_filter]
  apply List.filter_congr
  intro c _
  cases hdc : isDigitChar c <;> simp [hdc]

/-- First two letters followed by first five digits always match the local
grammar, given enough letters and digits. -/
lemma matchesLocal_extract (s : List Char)
    (h2 : 2 ≤ (s.filter isLowerAlpha).length) (h3 : 5 ≤ (s.filter isDigitChar).length) :
    matchesLocal ((s.filter isLowerAlpha).take 2 ++ (s.filter isDigitChar).take 5) = true := by
  have hlen1 : ((s.filter isLowerAlpha).take 2).length = 2 := by
    rw [List.length_take]
    omega
  have hlen2 : ((s.filter isDigitChar).take 5).length = 5 := by
    rw [List.length_take]
    omega
  simp only [matchesLocal, Bool.and_eq_true, decide_eq_true_eq, List.all_eq_true]
  refine ⟨⟨?_, ?_⟩, ?_⟩
  · rw [List.length_append, hlen1, hlen2]
  · intro c hc
    rw [List.take_left' hlen1] at hc
    exact List.mem_filter.mp (List.take_subset 2 _ hc) |>.2
  · intro c hc
    rw [List.drop_left' hlen1] at hc
    exact List.mem_filter.mp (List.take_subset 5 _ hc) |>.2

/-- C6 counterexample: step 1 fires on substring containment, not on an
end-of-string match. The raw value below does not end with the domain
suffix and its first two letters and first five digits form the valid
local part ab12345, yet normalization raises because the suffix occurs in
the middle, so branch 1 validates and then rejects the trailing text. -/
theorem c6_step1_trigger_counterexample :
    domainSuffix.isSuffixOf (normalizeRaw "ab12345@st.habib.edu.pk.x".data) = false ∧
    2 ≤ ((normalizeRaw "ab12345@st.habib.edu.pk.x".data).filter isLowerAlpha).length ∧
    5 ≤ ((normalizeRaw "ab12345@st.habib.edu.pk.x".data).filter isDigitChar).length ∧
    matchesLocal
      (((normalizeRaw "ab12345@st.habib.edu.pk.x".data).filter isLowerAlpha).take 2 ++
        ((normalizeRaw "ab12345@st.habib.edu.pk.x".data).filter isDigitChar).take 5) = true ∧
    validate_and_format_student_id "ab12345@st.habib.edu.pk.x".data = none := by
  refine ⟨?_, ?_, ?_, ?_, ?_⟩ <;> decide

/-- C6 amended: the five steps are tried in order and step 1 applies exactly
when the normalized raw value contains the domain suffix as a substring;
for every raw value that does not contain the suffix and has at least two
letters and five digits, normalization succeeds and returns the first two
letters followed by the first five digits with the suffix appended. -/
theorem c6_extraction_amended (raw : List Char)
    (h1 : hasSubstring (normalizeRaw raw) domainSuffix = false)
    (h2 : 2 ≤ ((normalizeRaw raw).filter isLowerAlpha).length)
    (h3 : 5 ≤ ((normalizeRaw raw).filter isDigitChar).length) :
    validate_and_format_student_id raw =
      some (((normalizeRaw raw).filter isLowerAlpha).take 2 ++
        (((normalizeRaw raw).filter isDigitChar).take 5 ++ domainSuffix)) := by
  simp only [validate_and_format_student_id, h1, Bool.false_eq_true, if_false]
  by_cases hm : matchesLocal (normalizeRaw raw) = true
  · rw [if_pos hm]
    conv_lhs => rw [matchesLocal_decomp hm]
    rw [List.append_assoc]
  · rw [if_neg hm]
    by_cases hmc : matchesLocal
        ((normalizeRaw raw).filter fun c => isLowerAlpha c || isDigitChar c) = true
    · rw [if_pos hmc]
      have hd := matchesLocal_decomp hmc
      rw [filter_lower_cleaned, filter_digit_cleaned] at hd
      conv_lhs => rw [hd]
      rw [List.append_assoc]
    · rw [if_neg hmc, if_pos ⟨h2, h3⟩, if_pos (matchesLocal_extract (normalizeRaw raw) h2 h3),
        List.append_assoc]

/-- C6 amended witness: HM 08298! has no suffix, letters hm and digits
08298, and normalizes to hm08298 with the suffix appended. -/
theorem c6_extraction_amended_witness :
    validate_and_format_student_id "HM 08298!".data =
      some "hm08298@st.habib.edu.pk".data := by
  have h := c6_extraction_amended "HM 08298!".data (by decide) (by decide) (by decide)
  rw [h]
  exact congrArg some (by decide)

/-- A ten-row, one-column grid whose single column has exactly seven
missing cells: its missing fraction is exactly 0.7. -/
def sparseGrid : Grid :=
  [[none], [none], [none], [none], [none], [none], [none],
    [some "x"], [some "y"], [some "z"]]

/-- C9 counterexample: a column whose missing fraction is exactly 0.7 is
dropped, because the code keeps a column only when the fraction compares
strictly below 0.7; the claim says such a column is kept. -/
theorem c9_sparsity_boundary_counterexample :
    colMissingFrac sparseGrid 0 = 7/10 ∧
    ¬ (7 : ℚ)/10 > 7/10 ∧
    dropSparseCols sparseGrid = List.replicate 10 [] := by
  have hfrac : colMissingFrac sparseGrid 0 = 7/10 := by
    rw [colMissingFrac, show colMissingCount sparseGrid 0 = 7 from by decide,
      show sparseGrid.length = 10 from by decide]
    norm_num
  refine ⟨hfrac, by norm_num, ?_⟩
  have hk : keepCol sparseGrid 0 = false := by
    rw [keepCol, hfrac, decide_eq_false (lt_irrefl ((7 : ℚ)/10))]
    simp
  have hs : survivingCols sparseGrid = [] := by
    rw [survivingCols, show gridWidth sparseGrid = 1 from by decide]
    simp [hk]
  rw [dropSparseCols, hs]
  decide

/-- C9 amended: for a grid with at least one row, a column index survives
the sparsity rule exactly when it is inside the grid width and its missing
fraction is strictly below 0.7; a fraction greater than or equal to 0.7,
including exactly 0.7, drops the column. -/
theorem c9_sparsity_amended (grid : Grid) (hne : grid ≠ []) (j : ℕ) :
    j ∈ survivingCols grid ↔ j < gridWidth grid ∧ colMissingFrac grid j < 7/10 := by
  simp [survivingCols, List.mem_filter, List.mem_range, keepCol, hne]

/-- C9 amended witness: a fully populated one-cell grid keeps its column. -/
theorem c9_sparsity_amended_witness : 0 ∈ survivingCols [[some "a"]] := by
  refine (c9_sparsity_amended [[some "a"]] (by decide) 0).mpr ⟨by decide, ?_⟩
  rw [colMissingFrac, show colMissingCount [[some "a"]] 0 = 0 from by decide,
    show ([[some "a"]] : Grid).length = 1 from by decide]
  norm_num
